import Mathlib


/-!
Verification of the quiz-helper answer-detection core.

This file gives a shallow embedding of the two core source files:
the page-world interception script (extraction engine, socket-message
parsing) and the content script (DOM matching, highlighting, pending
state).  JavaScript strings are embedded as `List Char`, JSON-shaped
values as the inductive `JVal`, and the live document as a flat list of
elements in document order carrying the fields the code inspects.
-/

/-! ### JavaScript string primitives -/

/-- Whitespace class of the JS regex `\s` (also the set trimmed by
`String.prototype.trim`): space, tab, LF, VT, FF, CR, NBSP, and the
Unicode space separators. -/
def isJsWs (c : Char) : Bool :=
  c = ' ' || c = '\t' || c = '\n' || c = '\r' ||
  c.toNat = 0x0B || c.toNat = 0x0C || c.toNat = 0xA0 || c.toNat = 0x1680 ||
  (0x2000 ≤ c.toNat && c.toNat ≤ 0x200A) ||
  c.toNat = 0x2028 || c.toNat = 0x2029 || c.toNat = 0x202F ||
  c.toNat = 0x205F || c.toNat = 0x3000 || c.toNat = 0xFEFF

/-- Line terminators, which the JS regex `.` does not match. -/
def isLineTerm (c : Char) : Bool :=
  c = '\n' || c = '\r' || c.toNat = 0x2028 || c.toNat = 0x2029

/-- Collapses a run of adjacent spaces into one space; applied after
mapping every whitespace character to a space this realises
`replace(/\s+/g, ' ')`. -/
def squeezeSp : List Char → List Char
  | [] => []
  | [c] => [c]
  | a :: b :: r =>
    if a = ' ' ∧ b = ' ' then squeezeSp (b :: r) else a :: squeezeSp (b :: r)

/-- Trim of leading and trailing whitespace (`String.prototype.trim`). -/
def trimWs (l : List Char) : List Char :=
  ((l.dropWhile isJsWs).reverse.dropWhile isJsWs).reverse

/-- Embedding of the content-script helper `normalizeText`:
`(text || '').replace(/\s+/g, ' ').trim().toLowerCase()` on an
already-string input. -/
def normalizeText (l : List Char) : List Char :=
  (trimWs (squeezeSp (l.map (fun c => if isJsWs c then ' ' else c)))).map Char.toLower

/-- Embedding of `String.prototype.includes`: does `sub` occur as a
contiguous run inside the scanned list? -/
def containsSub (sub : List Char) : List Char → Bool
  | [] => sub.isEmpty
  | c :: rest => sub.isPrefixOf (c :: rest) || containsSub sub rest

/-- Scans forward for the literal `b`, refusing to cross a line
terminator first: the semantics of `.*b` at the current position in a
JS regex without the dotall flag. -/
def findLit (b : List Char) : List Char → Bool
  | [] => b.isEmpty
  | c :: rest => b.isPrefixOf (c :: rest) || (!isLineTerm c && findLit b rest)

/-- Embedding of `CONFIG.PATTERNS.TEXT.test(key)` for the regex
`/(correct|right|true).*(text|answer)|correct_text|correctanswer|right_text|answer_true_text/i`.
The four literal alternatives are each subsumed by the first branch
(every one contains a first-group word followed, without a line
terminator between, by a second-group word), so the test holds exactly
when the case-folded key has an occurrence of `correct`, `right` or
`true` followed later (with no line terminator in between) by `text` or
`answer`. -/
def textPat (k : List Char) : Bool :=
  let lk := k.map Char.toLower
  lk.tails.any fun t =>
    ["correct".toList, "right".toList, "true".toList].any fun a =>
      a.isPrefixOf t && (["text".toList, "answer".toList].any fun b =>
        findLit b (t.drop a.length))

/-- Embedding of `CONFIG.PATTERNS.TOKEN.test(key)` for the regex
`/(token|id|answer.*id|answer_token)/i`.  The branches `answer.*id` and
`answer_token` are subsumed by the bare `id` and `token` branches, so
the test holds exactly when the case-folded key contains `token` or
`id`. -/
def tokenPat (k : List Char) : Bool :=
  let lk := k.map Char.toLower
  containsSub "token".toList lk || containsSub "id".toList lk

/-- Decimal digits of a natural number, most significant first;
auxiliary loop with explicit fuel. -/
def natCharsAux : Nat → Nat → List Char → List Char
  | 0, _, acc => acc
  | f + 1, n, acc =>
    let acc1 := Nat.digitChar (n % 10) :: acc
    if n < 10 then acc1 else natCharsAux f (n / 10) acc1

/-- Decimal representation of a natural number. -/
def natChars (n : Nat) : List Char := natCharsAux (n + 1) n []

/-- Embedding of `String(value)` for an integer number value. -/
def intChars (i : Int) : List Char :=
  if i < 0 then '-' :: natChars i.natAbs else natChars i.toNat

/-! ### JSON-shaped values -/

/-- JSON-shaped JavaScript value, as produced by `JSON.parse`: object
entries are kept in iteration order and numbers are restricted to the
integral numerals the development needs. -/
inductive JVal where
  | null
  | bool (b : Bool)
  | num (i : Int)
  | str (s : List Char)
  | arr (items : List JVal)
  | obj (entries : List (List Char × JVal))

/-- JavaScript truthiness of a JSON-shaped value. -/
def truthy : JVal → Bool
  | .null => false
  | .bool b => b
  | .num i => i != 0
  | .str s => !s.isEmpty
  | .arr _ => true
  | .obj _ => true

/-- Does `typeof v` evaluate to the string `object`?  True for objects,
arrays and `null`. -/
def isObjType : JVal → Bool
  | .null => true
  | .arr _ => true
  | .obj _ => true
  | _ => false

/-- Property access `v[k]`; a missing property or a primitive receiver
yields `undefined`, which this model conflates with `null` (the two are
interchangeable for every check the scripts perform). -/
def getProp (v : JVal) (k : List Char) : JVal :=
  match v with
  | .obj entries => (((entries.find? (fun e => e.1 == k)).map (fun e => e.2)).getD .null)
  | _ => .null

mutual
/-- Embedding of `String(v)` on JSON-shaped values. -/
def jsToString : JVal → List Char
  | .null => "null".toList
  | .bool b => (if b then "true" else "false").toList
  | .num i => intChars i
  | .str s => s
  | .arr items => jsJoinItems items
  | .obj _ => "[object Object]".toList
/-- Array-to-string conversion: elements joined with commas, `null`
elements contributing the empty string. -/
def jsJoinItems : List JVal → List Char
  | [] => []
  | [j] => (match j with | .null => [] | _ => jsToString j)
  | j :: k :: rest =>
      (match j with | .null => [] | _ => jsToString j) ++ ',' :: jsJoinItems (k :: rest)
end

/-! ### Heuristic extraction engine (`extractCorrectInfo`) -/

/-- AnswerDescriptor, and simultaneously the mutable accumulator pair
`correctText` / `correctToken` of `extractCorrectInfo`: `none` models
the initial `null`. -/
structure Payload where
  correctText : Option (List Char)
  correctToken : Option (List Char)
deriving DecidableEq, Repr

/-- JavaScript truthiness of a string-or-null accumulator field. -/
def truthyOpt : Option (List Char) → Bool
  | none => false
  | some s => !s.isEmpty

/-- Text-class block of the `walkObject` loop body: the capture is
guarded by the key pattern, `typeof value === 'string'`, and the
falsy-accumulator test. -/
def captureText (acc : Payload) (k : List Char) (v : JVal) : Payload :=
  if textPat k then
    match v with
    | .str s => if !truthyOpt acc.correctText then { acc with correctText := some s } else acc
    | _ => acc
  else acc

/-- Token-class block of the `walkObject` loop body: the capture is
guarded by the key pattern, string-or-number, and the falsy-accumulator
test, with numbers passed through `String(value)`. -/
def captureToken (acc : Payload) (k : List Char) (v : JVal) : Payload :=
  if tokenPat k then
    match v with
    | .str s =>
        if !truthyOpt acc.correctToken then { acc with correctToken := some s } else acc
    | .num i =>
        if !truthyOpt acc.correctToken then { acc with correctToken := some (intChars i) } else acc
    | _ => acc
  else acc

/-- Processing of a single `[key, value]` entry by the loop body of
`walkObject`: the text-class block runs first, then the token-class
block on the updated accumulator. -/
def capture (acc : Payload) (k : List Char) (v : JVal) : Payload :=
  captureToken (captureText acc k v) k v

mutual
/-- Embedding of the recursive `walkObject` threading the accumulator:
non-composite values return it unchanged, arrays walk their items in
order. -/
def walkJson (acc : Payload) : JVal → Payload
  | .arr items => walkItems acc items
  | .obj entries => walkEntries acc entries
  | _ => acc
/-- Walk of the items of an array, left to right. -/
def walkItems (acc : Payload) : List JVal → Payload
  | [] => acc
  | j :: rest => walkItems (walkJson acc j) rest
/-- Walk of the entries of an object in iteration order: each key is
tested (and possibly captured) first, then the walk recurses into the
value when it is a non-null object, then moves to the next entry. -/
def walkEntries (acc : Payload) : List (List Char × JVal) → Payload
  | [] => acc
  | (k, v) :: rest =>
      let acc1 := capture acc k v
      let acc2 := match v with
        | .arr _ => walkJson acc1 v
        | .obj _ => walkJson acc1 v
        | _ => acc1
      walkEntries acc2 rest
end

/-- Embedding of `extractCorrectInfo`: scalars and `null` are rejected
up front (`!data || typeof data !== 'object'`), the walk accumulates
the two captures, and the result object is returned only when at least
one accumulator is truthy. -/
def extractCorrectInfo (data : JVal) : Option Payload :=
  if !truthy data || !isObjType data then none
  else
    let acc := walkJson ⟨none, none⟩ data
    if truthyOpt acc.correctText || truthyOpt acc.correctToken then some acc else none

/-! ### Traversal order of the walk -/

/-- Uncurried entry processing, for folds over entry lists. -/
def capturePair (acc : Payload) (p : List Char × JVal) : Payload := capture acc p.1 p.2

mutual
/-- Depth-first list of all object entries of a value, in the order
`walkObject` visits them: sequence elements in order, mapping entries
in iteration order, each key listed before the entries nested inside
its value. -/
def dfsJson : JVal → List (List Char × JVal)
  | .arr items => dfsItems items
  | .obj entries => dfsEntries entries
  | _ => []
/-- Depth-first entries of the items of an array, left to right. -/
def dfsItems : List JVal → List (List Char × JVal)
  | [] => []
  | j :: rest => dfsJson j ++ dfsItems rest
/-- Depth-first entries of an entry list: each entry itself, then the
entries nested inside its value, then the following entries. -/
def dfsEntries : List (List Char × JVal) → List (List Char × JVal)
  | [] => []
  | (k, v) :: rest => (k, v) :: (dfsJson v ++ dfsEntries rest)
end

/-! ### First-found-wins accumulation, componentwise -/

/-- The string captured by the text class from one entry, if any. -/
def textOf (k : List Char) (v : JVal) : Option (List Char) :=
  if textPat k then (match v with | .str s => some s | _ => none) else none

/-- The string captured by the token class from one entry, if any
(numbers through their string form). -/
def tokOf (k : List Char) (v : JVal) : Option (List Char) :=
  if tokenPat k then
    (match v with | .str s => some s | .num i => some (intChars i) | _ => none)
  else none

/-- One accumulator update: a candidate string overwrites only a falsy
accumulator. -/
def stepCap (t : Option (List Char)) (s : List Char) : Option (List Char) :=
  if truthyOpt t then t else some s

/-- Composite values: arrays and non-null keyed mappings, exactly the
inputs the extraction walk descends into. -/
def isComposite : JVal → Bool
  | .arr _ => true
  | .obj _ => true
  | _ => false

/-- Text-class capture values along the depth-first entry list. -/
def textVals (ps : List (List Char × JVal)) : List (List Char) :=
  ps.filterMap (fun p => textOf p.1 p.2)

/-- Token-class capture values along the depth-first entry list. -/
def tokVals (ps : List (List Char × JVal)) : List (List Char) :=
  ps.filterMap (fun p => tokOf p.1 p.2)

/-- The first truthy (non-empty) capture value, if any. -/
def firstTruthy (ms : List (List Char)) : Option (List Char) :=
  (ms.filter (fun s => !s.isEmpty)).head?

/-! ### Host `JSON.parse`, restricted to the JSON subset of this model -/

/-- JSON insignificant whitespace. -/
def jsonWs (c : Char) : Bool :=
  c = ' ' || c = '\t' || c = '\n' || c = '\r'

/-- Is this character a hexadecimal digit? -/
def isHexDigit (c : Char) : Bool :=
  c.isDigit || ('a' ≤ c && c ≤ 'f') || ('A' ≤ c && c ≤ 'F')

/-- Value of a hexadecimal digit. -/
def hexVal (c : Char) : Nat :=
  if c.isDigit then c.toNat - 48
  else if 'a' ≤ c && c ≤ 'f' then c.toNat - 87
  else c.toNat - 55

/-- Body of a JSON string literal after the opening quote; returns the
decoded characters and the remaining input.  Unescaped control
characters are rejected, as `JSON.parse` does; `\u` escapes in the
surrogate range are outside this model and rejected. -/
def pStr : List Char → Option (List Char × List Char)
  | [] => none
  | '"' :: rest => some ([], rest)
  | '\\' :: '"' :: rest => (pStr rest).map (fun p => ('"' :: p.1, p.2))
  | '\\' :: '\\' :: rest => (pStr rest).map (fun p => ('\\' :: p.1, p.2))
  | '\\' :: '/' :: rest => (pStr rest).map (fun p => ('/' :: p.1, p.2))
  | '\\' :: 'b' :: rest => (pStr rest).map (fun p => ('\x08' :: p.1, p.2))
  | '\\' :: 'f' :: rest => (pStr rest).map (fun p => ('\x0C' :: p.1, p.2))
  | '\\' :: 'n' :: rest => (pStr rest).map (fun p => ('\n' :: p.1, p.2))
  | '\\' :: 'r' :: rest => (pStr rest).map (fun p => ('\r' :: p.1, p.2))
  | '\\' :: 't' :: rest => (pStr rest).map (fun p => ('\t' :: p.1, p.2))
  | '\\' :: 'u' :: h1 :: h2 :: h3 :: h4 :: rest =>
      if isHexDigit h1 && isHexDigit h2 && isHexDigit h3 && isHexDigit h4 then
        if 0xD800 ≤ ((hexVal h1 * 16 + hexVal h2) * 16 + hexVal h3) * 16 + hexVal h4 &&
            ((hexVal h1 * 16 + hexVal h2) * 16 + hexVal h3) * 16 + hexVal h4 ≤ 0xDFFF then none
        else (pStr rest).map (fun p =>
          (Char.ofNat (((hexVal h1 * 16 + hexVal h2) * 16 + hexVal h3) * 16 + hexVal h4) :: p.1, p.2))
      else none
  | '\\' :: _ => none
  | c :: rest =>
      if c.toNat < 0x20 then none
      else (pStr rest).map (fun p => (c :: p.1, p.2))

/-- Longest leading digit run. -/
def takeDigits : List Char → List Char × List Char
  | [] => ([], [])
  | c :: r =>
      if c.isDigit then
        let p := takeDigits r
        (c :: p.1, p.2)
      else ([], c :: r)

/-- Numeric value of a digit run. -/
def digitsToNat (ds : List Char) : Nat :=
  ds.foldl (fun n c => n * 10 + (c.toNat - 48)) 0

/-- JSON numeral at the head of the input, integral numerals only:
fractional or exponential numerals are outside this model and
rejected. -/
def pNum (neg : Bool) (s : List Char) : Option (JVal × List Char) :=
  let p := takeDigits s
  if p.1.isEmpty then none
  else if p.1.length > 1 && p.1.head? = some '0' then none
  else match p.2 with
    | '.' :: _ => none
    | 'e' :: _ => none
    | 'E' :: _ => none
    | _ => some (.num (if neg then -(digitsToNat p.1 : Int) else (digitsToNat p.1 : Int)), p.2)

mutual
/-- JSON value at the head of the input (fuel-indexed recursive
descent). -/
def pVal : Nat → List Char → Option (JVal × List Char)
  | 0, _ => none
  | f + 1, s =>
    match s.dropWhile jsonWs with
    | '\x7b' :: rest => pObjBody f rest
    | '[' :: rest => pArrBody f rest
    | '"' :: rest => (pStr rest).map (fun p => (JVal.str p.1, p.2))
    | 't' :: 'r' :: 'u' :: 'e' :: rest => some (.bool true, rest)
    | 'f' :: 'a' :: 'l' :: 's' :: 'e' :: rest => some (.bool false, rest)
    | 'n' :: 'u' :: 'l' :: 'l' :: rest => some (.null, rest)
    | '-' :: rest => pNum true rest
    | c :: rest => if c.isDigit then pNum false (c :: rest) else none
    | [] => none
/-- Array body after the opening bracket. -/
def pArrBody : Nat → List Char → Option (JVal × List Char)
  | 0, _ => none
  | f + 1, s =>
    match s.dropWhile jsonWs with
    | ']' :: rest => some (.arr [], rest)
    | _ => pArrItems f s []
/-- Comma-separated array items, accumulated in order. -/
def pArrItems : Nat → List Char → List JVal → Option (JVal × List Char)
  | 0, _, _ => none
  | f + 1, s, acc =>
    (pVal f s).bind fun p =>
      match p.2.dropWhile jsonWs with
      | ',' :: r2 => pArrItems f r2 (acc ++ [p.1])
      | ']' :: r2 => some (.arr (acc ++ [p.1]), r2)
      | _ => none
/-- Object body after the opening brace. -/
def pObjBody : Nat → List Char → Option (JVal × List Char)
  | 0, _ => none
  | f + 1, s =>
    match s.dropWhile jsonWs with
    | '\x7d' :: rest => some (.obj [], rest)
    | _ => pObjMembers f s []
/-- Comma-separated object members, accumulated in iteration order. -/
def pObjMembers : Nat → List Char → List (List Char × JVal) → Option (JVal × List Char)
  | 0, _, _ => none
  | f + 1, s, acc =>
    match s.dropWhile jsonWs with
    | '"' :: r =>
      (pStr r).bind fun kp =>
        match kp.2.dropWhile jsonWs with
        | ':' :: r3 =>
          (pVal f r3).bind fun vp =>
            match vp.2.dropWhile jsonWs with
            | ',' :: r5 => pObjMembers f r5 (acc ++ [(kp.1, vp.1)])
            | '\x7d' :: r5 => some (.obj (acc ++ [(kp.1, vp.1)]), r5)
            | _ => none
        | _ => none
    | _ => none
end

/-- Embedding of `JSON.parse` on the modelled subset: a single value
with only insignificant whitespace around it. -/
def jsonParse (s : List Char) : Option JVal :=
  match pVal (2 * s.length + 2) s with
  | some (v, rest) => if (rest.dropWhile jsonWs).isEmpty then some v else none
  | none => none

/-! ### WebSocket message inspection (`parseSocketMessage`) -/

/-- One iteration of the array loop in the Socket.io branch: items that
are truthy objects are handed to the extraction engine, and truthy
extraction results are posted. -/
def itemPost (it : JVal) : Option Payload :=
  if truthy it && isObjType it then extractCorrectInfo it else none

/-- Embedding of `parseSocketMessage` on string data, returning the
list of descriptors posted through `postCorrectAnswer` in order.  The
Socket.io branch requires the `42` prefix and a bracket, strips
everything before the first bracket, and iterates the parsed array; the
plain branch requires a leading brace or bracket and passes the whole
parsed value to the extraction engine. -/
def parseSocketMessage (data : List Char) : List Payload :=
  if ("42".toList.isPrefixOf data) && data.contains '[' then
    match jsonParse (data.dropWhile (fun c => c != '[')) with
    | some (.arr items) => items.filterMap itemPost
    | _ => []
  else if (match data with | '\x7b' :: _ => true | '[' :: _ => true | _ => false) then
    match jsonParse data with
    | some v => (extractCorrectInfo v).toList
    | none => []
  else []

/-! ### Document model and DOM matching engine -/

/-- Element of the live document, carrying exactly the features the
content script inspects: attributes, the rendered text
(`innerText || textContent`), whether the element matches
`CONFIG.ANSWER_SELECTORS`, whether it is a leaf (no element children)
under `body`, whether it carries the highlight marker class, and the
index of its parent element.  The document itself is a `List Elem` in
document order. -/
structure Elem where
  attrs : List (List Char × List Char)
  text : List Char
  answerSel : Bool
  leaf : Bool
  marked : Bool
  parent : Option Nat
deriving DecidableEq, Repr

/-- Attribute lookup on an element. -/
def getAttr (e : Elem) (a : List Char) : Option (List Char) :=
  (e.attrs.find? (fun p => p.1 == a)).map (fun p => p.2)

/-- The fixed token attribute list `CONFIG.TOKEN_ATTRIBUTES`. -/
def tokenAttrNames : List (List Char) :=
  ["data-token".toList, "data-id".toList, "data-answer-id".toList,
   "data-key".toList, "data-value".toList]

/-- Does the element match the combined attribute-equality selector for
this token value?  `CSS.escape` round-trips through selector parsing,
so the semantics is plain string equality of the attribute value. -/
def elemTokenMatch (v : List Char) (e : Elem) : Bool :=
  tokenAttrNames.any (fun a => getAttr e a == some v)

/-- Embedding of `findByToken`: the falsy-token guard, then
`document.querySelector` over the combined selector, which yields the
first matching element in document order.  The token reaches this
function as a raw payload field and is coerced by `String(value)`
inside `cssEscape`. -/
def findByToken (doc : List Elem) (token : JVal) : Option Nat :=
  if !truthy token then none
  else doc.findIdx? (elemTokenMatch (jsToString token))

/-- Candidate elements of the text search: the elements matching
`CONFIG.ANSWER_SELECTORS` in document order, capped at
`LIMITS.MAX_CANDIDATES = 1500`, paired with their document-order
index. -/
def answerCandidates (doc : List Elem) : List (Nat × Elem) :=
  ((doc.enum.filter (fun p => p.2.answerSel)).take 1500)

/-- Leaf elements scanned by the fallback stage, capped at
`LIMITS.MAX_TEXT_ELEMENTS = 200`. -/
def leafCandidates (doc : List Elem) : List (Nat × Elem) :=
  ((doc.enum.filter (fun p => p.2.leaf)).take 200)

/-- Embedding of `findByText` on a string input: the falsy guard, an
exact-normalized-match pass over the whole candidate set, then a
substring pass over the same candidates, then an exact pass over the
leaf fallback set. -/
def findByText (doc : List Elem) (text : List Char) : Option Nat :=
  if text.isEmpty then none
  else
    let ns := normalizeText text
    let cands := answerCandidates doc
    match cands.find? (fun p => normalizeText p.2.text == ns) with
    | some p => some p.1
    | none =>
      match cands.find? (fun p => containsSub ns (normalizeText p.2.text)) with
      | some p => some p.1
      | none => (leafCandidates doc |>.find? (fun p => normalizeText p.2.text == ns)).map (fun p => p.1)

/-- Loop of `findClosestAnswer`: up to `MAX_PARENT_DEPTH = 6`
iterations, each testing the current node against the answer selectors
and otherwise stepping to its parent; a node reference that resolves to
nothing behaves like a null node and stops the walk. -/
def fcaLoop (doc : List Elem) : Nat → Option Nat → Option Nat
  | 0, _ => none
  | _ + 1, none => none
  | f + 1, some i =>
    match doc[i]? with
    | none => none
    | some e => if e.answerSel then some i else fcaLoop doc f e.parent

/-- Embedding of `findClosestAnswer`: the bounded upward walk, falling
back to the original element when the walk finds nothing. -/
def findClosestAnswer (doc : List Elem) (i : Nat) : Nat :=
  (fcaLoop doc 6 (some i)).getD i

/-- The chain of node indices the walk visits: the element itself and
its successive ancestors, cut off at the fuel bound. -/
def ancestorChain (doc : List Elem) : Nat → Option Nat → List Nat
  | 0, _ => []
  | _ + 1, none => []
  | f + 1, some i =>
    match doc[i]? with
    | none => []
    | some e => i :: ancestorChain doc f e.parent

/-- Does the node at this index match the answer selectors? -/
def answerAt (doc : List Elem) (j : Nat) : Bool :=
  (doc[j]?.map (fun e => e.answerSel)).getD false

/-! ### Highlight state manager -/

/-- Embedding of `clearPreviousHighlight`: the marker class is removed
from every element that carries it. -/
def clearPreviousHighlight (doc : List Elem) : List Elem :=
  doc.map (fun e => { e with marked := false })

/-- Adds the marker class to the element at the given index. -/
def setMarkedAt : List Elem → Nat → List Elem
  | [], _ => []
  | e :: r, 0 => { e with marked := true } :: r
  | e :: r, n + 1 => e :: setMarkedAt r n

/-- Embedding of `markAsCorrect` on a located element index: clear all
previous highlights first, promote the element through
`findClosestAnswer`, then add the marker class to the target. -/
def markAsCorrect (doc : List Elem) (i : Nat) : List Elem :=
  setMarkedAt (clearPreviousHighlight doc)
    (findClosestAnswer (clearPreviousHighlight doc) i)

/-- Number of elements carrying the marker class. -/
def markedCount (doc : List Elem) : Nat :=
  doc.countP (fun e => e.marked)

/-- Element-finding phase of `tryMarkCorrectAnswer`, instrumented: the
first component is the located element (`.error ()` models the
`TypeError` thrown by `normalizeText` when a truthy non-string
`correctText` reaches it), and the second component records whether the
text stage ran.  Token lookup runs first when `correctToken` is truthy;
the text stage runs only when that produced no element and
`correctText` is truthy. -/
def locatePayloadT (doc : List Elem) (p : JVal) : Except Unit (Option Nat) × Bool :=
  match (if truthy (getProp p "correctToken".toList)
         then findByToken doc (getProp p "correctToken".toList) else none) with
  | some i => (.ok (some i), false)
  | none =>
    if truthy (getProp p "correctText".toList) then
      match getProp p "correctText".toList with
      | .str s => (.ok (findByText doc s), true)
      | _ => (.error (), true)
    else (.ok none, false)

/-- Element-finding phase of `tryMarkCorrectAnswer`. -/
def locatePayload (doc : List Elem) (p : JVal) : Except Unit (Option Nat) :=
  (locatePayloadT doc p).1

/-- Content-script state: the document and the pending payload
(`JVal.null` models the cleared `lastPayload`). -/
structure CState where
  doc : List Elem
  lastPayload : JVal

/-- Embedding of `tryMarkCorrectAnswer`: nothing happens on a falsy
pending payload; otherwise the element-finding phase runs, a located
element is marked and the payload is cleared, and a missed search
leaves the state unchanged. -/
def tryMarkCorrectAnswer (s : CState) : Except Unit CState :=
  if !truthy s.lastPayload then .ok s
  else
    match locatePayload s.doc s.lastPayload with
    | .error e => .error e
    | .ok none => .ok s
    | .ok (some i) => .ok ⟨markAsCorrect s.doc i, .null⟩

/-- Resolution of a possibly-thrown call against the state it would
leave behind: an exception escaping the listener leaves every mutation
made so far in place. -/
def runExcept (s : CState) (r : Except Unit CState) : CState :=
  match r with
  | .ok s1 => s1
  | .error _ => s

/-- Strict-equality test of a JSON-shaped value against a string
literal. -/
def isStrEq (v : JVal) (s : List Char) : Bool :=
  match v with
  | .str t => t == s
  | _ => false

/-- Embedding of the `message` event listener: reject events from other
windows, reject envelopes without both fixed tags, then store the
payload unconditionally and attempt a highlight. -/
def onMessage (s : CState) (sameWindow : Bool) (msg : JVal) : CState :=
  if !sameWindow then s
  else if !truthy msg
      || !isStrEq (getProp msg "source".toList) "quiz-helper".toList
      || !isStrEq (getProp msg "type".toList) "CORRECT".toList then s
  else
    runExcept ⟨s.doc, getProp msg "payload".toList⟩
      (tryMarkCorrectAnswer ⟨s.doc, getProp msg "payload".toList⟩)

/-- Operations of the content script: a broadcast message arriving, or
a mutation-observer retry whose debounce window has passed. -/
inductive COp where
  | message (sameWindow : Bool) (msg : JVal)
  | mutationRetry

/-- One step of the content script. -/
def applyOp (s : CState) : COp → CState
  | .message sw m => onMessage s sw m
  | .mutationRetry => runExcept s (tryMarkCorrectAnswer s)

/-- A run of the content script from a starting state. -/
def runOps (s : CState) (ops : List COp) : CState :=
  ops.foldl applyOp s

/-- RelayEnvelope carrying a payload, as built by `postCorrectAnswer`. -/
def mkEnvelope (p : JVal) : JVal :=
  .obj [("source".toList, .str "quiz-helper".toList),
        ("type".toList, .str "CORRECT".toList),
        ("payload".toList, p)]

/-! ### Concrete data for witnesses and counterexamples -/

/-- Concrete input refuting the first-found-wins phrasing: the first
text-class match is the empty string, which the falsy-accumulator guard
lets a later match overwrite. -/
def dC1 : JVal :=
  .obj [("correct_text".toList, .str []),
        ("right_answer".toList, .str "later".toList)]

/-- Concrete token-class input for witnesses. -/
def dTok : JVal := .obj [("answer_token".toList, .num 42)]

/-- Concrete no-match input for the C9 witness. -/
def dNoMatch : JVal := .obj [("foo".toList, .str "x".toList)]

/-- Document element carrying a token attribute, for witnesses. -/
def eTok : Elem :=
  ⟨[("data-id".toList, "tok1".toList)], "token answer".toList, true, true, false, none⟩

/-- Document element whose text matches the descriptor text, for
witnesses. -/
def eTxt : Elem := ⟨[], "x".toList, true, true, false, none⟩

/-- Descriptor with both fields set, for witnesses. -/
def pC2 : JVal :=
  .obj [("correctToken".toList, .str "tok1".toList),
        ("correctText".toList, .str "x".toList)]

/-- Candidate whose text merely contains the search text, first in
document order. -/
def eParisFrance : Elem := ⟨[], "Paris, France".toList, true, true, false, none⟩

/-- Candidate whose text matches the search text exactly, second in
document order. -/
def eParis : Elem := ⟨[], "Paris".toList, true, true, false, none⟩

/-- Scenario A document: the substring candidate precedes the exact
one. -/
def docParis : List Elem := [eParisFrance, eParis]

/-- Document where the located element is promoted to its parent. -/
def docPromo : List Elem :=
  [⟨[], "child".toList, false, true, false, some 1⟩,
   ⟨[], "parent".toList, true, false, false, none⟩]

/-- Text-only descriptor payload used by several witnesses. -/
def pText : JVal := .obj [("correctText".toList, .str "x".toList)]

/-- Second descriptor payload for the C6 witness. -/
def pText2 : JVal := .obj [("correctText".toList, .str "y".toList)]

/-! ## Theorems -/

example : natChars 42 = ['4', '2'] := rfl

example : natChars 0 = ['0'] := rfl

example : intChars (-3) = ['-', '3'] := rfl

example : normalizeText "  Paris,   France ".toList = "paris, france".toList := rfl

example : textPat "correct_text".toList = true := rfl

example : textPat "rightAnswer".toList = true := rfl

example : textPat "foo".toList = false := rfl

example : tokenPat "answer_id".toList = true := rfl

example : tokenPat "correct_text".toList = false := rfl

example : extractCorrectInfo (.obj [("correct_text".toList, .str "Paris".toList)]) =
    some ⟨some "Paris".toList, none⟩ := rfl

example : extractCorrectInfo (.num 5) = none := rfl

example : extractCorrectInfo (.obj [("answer_token".toList, .num 42)]) =
    some ⟨none, some "42".toList⟩ := rfl

example : extractCorrectInfo
    (.obj [("correct_text".toList, .str "".toList),
           ("right_answer".toList, .str "later".toList)]) =
    some ⟨some "later".toList, none⟩ := rfl

mutual
/-- The recursive walk is the left fold of the entry processing over
the depth-first entry list. -/
theorem walkJson_eq_foldl : ∀ (j : JVal) (acc : Payload),
    walkJson acc j = (dfsJson j).foldl capturePair acc
  | .null, acc => by simp [walkJson, dfsJson]
  | .bool b, acc => by simp [walkJson, dfsJson]
  | .num i, acc => by simp [walkJson, dfsJson]
  | .str s, acc => by simp [walkJson, dfsJson]
  | .arr items, acc => by
      simp only [walkJson, dfsJson]; exact walkItems_eq_foldl items acc
  | .obj entries, acc => by
      simp only [walkJson, dfsJson]; exact walkEntries_eq_foldl entries acc
/-- Fold form of the walk over array items. -/
theorem walkItems_eq_foldl : ∀ (l : List JVal) (acc : Payload),
    walkItems acc l = (dfsItems l).foldl capturePair acc
  | [], acc => by simp [walkItems, dfsItems]
  | j :: rest, acc => by
      have h1 := walkJson_eq_foldl j acc
      have h2 := walkItems_eq_foldl rest (walkJson acc j)
      simp only [walkItems, dfsItems, List.foldl_append]
      rw [← h1]; exact h2
/-- Fold form of the walk over object entries. -/
theorem walkEntries_eq_foldl : ∀ (l : List (List Char × JVal)) (acc : Payload),
    walkEntries acc l = (dfsEntries l).foldl capturePair acc
  | [], acc => by simp [walkEntries, dfsEntries]
  | (k, v) :: rest, acc => by
      have h1 := walkJson_eq_foldl v (capture acc k v)
      have h2 := walkEntries_eq_foldl rest
      simp only [walkEntries, dfsEntries, List.foldl_cons, List.foldl_append]
      cases v <;>
        simp only [dfsJson, List.foldl_nil, capturePair] at h1 ⊢ <;>
        rw [h2] <;> rw [← h1]
end

theorem captureText_correctToken (acc : Payload) (k : List Char) (v : JVal) :
    (captureText acc k v).correctToken = acc.correctToken := by
  cases v <;> simp only [captureText] <;> split_ifs <;> rfl

theorem captureToken_correctText (acc : Payload) (k : List Char) (v : JVal) :
    (captureToken acc k v).correctText = acc.correctText := by
  cases v <;> simp only [captureToken] <;> split_ifs <;> rfl

theorem captureText_correctText (acc : Payload) (k : List Char) (v : JVal) :
    (captureText acc k v).correctText =
      (match textOf k v with
       | none => acc.correctText
       | some s => stepCap acc.correctText s) := by
  cases v <;> simp only [captureText, textOf, stepCap] <;>
    split_ifs <;> simp_all

theorem captureToken_correctToken (acc : Payload) (k : List Char) (v : JVal) :
    (captureToken acc k v).correctToken =
      (match tokOf k v with
       | none => acc.correctToken
       | some s => stepCap acc.correctToken s) := by
  cases v <;> simp only [captureToken, tokOf, stepCap] <;>
    split_ifs <;> simp_all

theorem capture_correctText (acc : Payload) (k : List Char) (v : JVal) :
    (capture acc k v).correctText =
      (match textOf k v with
       | none => acc.correctText
       | some s => stepCap acc.correctText s) := by
  rw [capture, captureToken_correctText, captureText_correctText]

theorem capture_correctToken (acc : Payload) (k : List Char) (v : JVal) :
    (capture acc k v).correctToken =
      (match tokOf k v with
       | none => acc.correctToken
       | some s => stepCap acc.correctToken s) := by
  rw [capture, captureToken_correctToken, captureText_correctToken]

theorem isComposite_truthy {data : JVal} (h : isComposite data = true) :
    truthy data = true ∧ isObjType data = true := by
  cases data <;> simp_all [isComposite, truthy, isObjType]

theorem foldl_capture_correctText : ∀ (ps : List (List Char × JVal)) (acc : Payload),
    (ps.foldl capturePair acc).correctText = (textVals ps).foldl stepCap acc.correctText
  | [], _ => rfl
  | p :: rest, acc => by
      have hc := capture_correctText acc p.1 p.2
      have ih := foldl_capture_correctText rest (capturePair acc p)
      simp only [List.foldl_cons, textVals, List.filterMap_cons]
      cases h : textOf p.1 p.2 with
      | none =>
          rw [h] at hc
          rw [ih]
          show (textVals rest).foldl stepCap (capture acc p.1 p.2).correctText = _
          rw [hc]
          rfl
      | some s =>
          rw [h] at hc
          rw [ih]
          show (textVals rest).foldl stepCap (capture acc p.1 p.2).correctText = _
          rw [hc]
          rfl

theorem foldl_capture_correctToken : ∀ (ps : List (List Char × JVal)) (acc : Payload),
    (ps.foldl capturePair acc).correctToken = (tokVals ps).foldl stepCap acc.correctToken
  | [], _ => rfl
  | p :: rest, acc => by
      have hc := capture_correctToken acc p.1 p.2
      have ih := foldl_capture_correctToken rest (capturePair acc p)
      simp only [List.foldl_cons, tokVals, List.filterMap_cons]
      cases h : tokOf p.1 p.2 with
      | none =>
          rw [h] at hc
          rw [ih]
          show (tokVals rest).foldl stepCap (capture acc p.1 p.2).correctToken = _
          rw [hc]
          rfl
      | some s =>
          rw [h] at hc
          rw [ih]
          show (tokVals rest).foldl stepCap (capture acc p.1 p.2).correctToken = _
          rw [hc]
          rfl

theorem foldl_stepCap_eq : ∀ (ms : List (List Char)) (t : Option (List Char)),
    ms.foldl stepCap t =
      if truthyOpt t then t
      else
        match firstTruthy ms with
        | some v => some v
        | none => if ms.isEmpty then t else some []
  | [], t => by simp [firstTruthy]
  | m :: rest, t => by
      have ih := foldl_stepCap_eq rest
      by_cases ht : truthyOpt t = true
      · have hstep : stepCap t m = t := by simp [stepCap, ht]
        rw [if_pos ht, List.foldl_cons, hstep]
        have h2 := ih t
        rw [if_pos ht] at h2
        exact h2
      · have hf : truthyOpt t = false := by simpa using ht
        have hstep : stepCap t m = some m := by simp [stepCap, hf]
        by_cases hm : m.isEmpty = true
        · have hm0 : m = [] := by simpa using hm
          subst hm0
          rw [if_neg ht, List.foldl_cons, hstep]
          have h2 := ih (some [])
          rw [if_neg (by simp [truthyOpt] : ¬ truthyOpt (some ([] : List Char)) = true)] at h2
          rw [h2]
          have hfe : firstTruthy (([] : List Char) :: rest) = firstTruthy rest := by
            simp [firstTruthy, List.filter_cons]
          rw [hfe]
          cases hft : firstTruthy rest with
          | some v => rfl
          | none =>
              show (if rest.isEmpty = true then some [] else some []) =
                (if (([] : List Char) :: rest).isEmpty = true then t else some [])
              simp
        · have hm1 : m.isEmpty = false := by simpa using hm
          rw [if_neg ht, List.foldl_cons, hstep]
          have h2 := ih (some m)
          rw [if_pos (by simp [truthyOpt, hm1] : truthyOpt (some m) = true)] at h2
          rw [h2]
          have hfe : firstTruthy (m :: rest) = some m := by
            simp [firstTruthy, List.filter_cons, hm1]
          rw [hfe]

theorem firstTruthy_nonempty {ms : List (List Char)} {v : List Char}
    (h : firstTruthy ms = some v) : v.isEmpty = false := by
  unfold firstTruthy at h
  have hmem : v ∈ ms.filter (fun s => !s.isEmpty) := by
    cases hf : ms.filter (fun s => !s.isEmpty) with
    | nil => rw [hf] at h; exact absurd h (by simp)
    | cons a l =>
        rw [hf] at h
        simp only [List.head?_cons, Option.some.injEq] at h
        exact h ▸ List.mem_cons_self a l
  have := (List.mem_filter.mp hmem).2
  simpa using this

theorem walk_correctText (data : JVal) :
    (walkJson ⟨none, none⟩ data).correctText =
      (match firstTruthy (textVals (dfsJson data)) with
       | some v => some v
       | none => if (textVals (dfsJson data)).isEmpty then none else some []) := by
  rw [walkJson_eq_foldl]
  rw [foldl_capture_correctText]
  have h := foldl_stepCap_eq (textVals (dfsJson data)) none
  rw [if_neg (by simp [truthyOpt] : ¬ truthyOpt none = true)] at h
  exact h

theorem walk_correctToken (data : JVal) :
    (walkJson ⟨none, none⟩ data).correctToken =
      (match firstTruthy (tokVals (dfsJson data)) with
       | some v => some v
       | none => if (tokVals (dfsJson data)).isEmpty then none else some []) := by
  rw [walkJson_eq_foldl]
  rw [foldl_capture_correctToken]
  have h := foldl_stepCap_eq (tokVals (dfsJson data)) none
  rw [if_neg (by simp [truthyOpt] : ¬ truthyOpt none = true)] at h
  exact h

theorem extract_of_composite {data : JVal} (h : isComposite data = true) :
    extractCorrectInfo data =
      (if truthyOpt (walkJson ⟨none, none⟩ data).correctText
          || truthyOpt (walkJson ⟨none, none⟩ data).correctToken
       then some (walkJson ⟨none, none⟩ data) else none) := by
  obtain ⟨h1, h2⟩ := isComposite_truthy h
  simp only [extractCorrectInfo, h1, h2, Bool.not_true, Bool.false_or, Bool.or_self,
    Bool.false_eq_true, if_false]

theorem extract_of_scalar {data : JVal} (h : isComposite data = false) :
    extractCorrectInfo data = none := by
  cases data <;> simp_all [isComposite, extractCorrectInfo, truthy, isObjType]

/-! ### Helper facts -/

theorem natCharsAux_length_le : ∀ (f n : Nat) (acc : List Char),
    acc.length ≤ (natCharsAux f n acc).length
  | 0, _, _ => le_refl _
  | f + 1, n, acc => by
      simp only [natCharsAux]
      split
      · simp
      · exact le_trans (by simp) (natCharsAux_length_le f (n / 10) _)

theorem natChars_ne_nil (n : Nat) : natChars n ≠ [] := by
  have h : 0 < (natChars n).length := by
    unfold natChars
    simp only [natCharsAux]
    split
    · simp
    · exact lt_of_lt_of_le (by simp) (natCharsAux_length_le n (n / 10) _)
  intro hnil
  rw [hnil] at h
  simp at h

theorem intChars_ne_nil (i : Int) : intChars i ≠ [] := by
  unfold intChars
  split
  · simp
  · exact natChars_ne_nil _

theorem truthyOpt_ne_none {o : Option (List Char)} (h : truthyOpt o = true) : o ≠ none := by
  cases o <;> simp_all [truthyOpt]

/-- Claim C1, counterexample: on a composite input whose first
text-class match in depth-first order is the empty string, the
descriptor carries a later matching value, so the returned
`correctText` differs from the first matching string value in traversal
order. -/
theorem claimC1_cex :
    isComposite dC1 = true ∧
    (textVals (dfsJson dC1)).head? = some [] ∧
    (extractCorrectInfo dC1).bind Payload.correctText = some "later".toList ∧
    (extractCorrectInfo dC1).bind Payload.correctText ≠ (textVals (dfsJson dC1)).head? := by
  refine ⟨rfl, rfl, rfl, ?_⟩
  decide

/-- Claim C1 (amended): for every composite input, `correctText` equals
the first matching string value that is non-empty in depth-first
traversal order (sequence elements in order, mapping entries in
iteration order, each key tested before recursing into its value); a
later match never replaces an earlier non-empty capture, but an earlier
empty-string capture is falsy and is overwritten by the next match.
The same rule holds for `correctToken` over the string forms of the
matched token-class values. -/
theorem claimC1 :
    (∀ (data : JVal) (v : List Char), isComposite data = true →
        firstTruthy (textVals (dfsJson data)) = some v →
        (extractCorrectInfo data).bind Payload.correctText = some v) ∧
    (∀ (data : JVal) (v : List Char), isComposite data = true →
        firstTruthy (tokVals (dfsJson data)) = some v →
        (extractCorrectInfo data).bind Payload.correctToken = some v) := by
  constructor
  · intro data v hc hf
    rw [extract_of_composite hc]
    have ht := walk_correctText data
    rw [hf] at ht
    have ht2 : (walkJson ⟨none, none⟩ data).correctText = some v := by rw [ht]
    have hne := firstTruthy_nonempty hf
    have htv : truthyOpt (some v) = true := by simp [truthyOpt, hne]
    simp only [ht2, htv, Bool.true_or, if_true]
    simp [ht2]
  · intro data v hc hf
    rw [extract_of_composite hc]
    have ht := walk_correctToken data
    rw [hf] at ht
    have ht2 : (walkJson ⟨none, none⟩ data).correctToken = some v := by rw [ht]
    have hne := firstTruthy_nonempty hf
    have htv : truthyOpt (some v) = true := by simp [truthyOpt, hne]
    simp only [ht2, htv, Bool.or_true, if_true]
    simp [ht2]

/-- Witness for the amended claim C1 at concrete inputs. -/
theorem claimC1_witness :
    (extractCorrectInfo dC1).bind Payload.correctText = some "later".toList ∧
    (extractCorrectInfo dTok).bind Payload.correctToken = some "42".toList :=
  ⟨claimC1.1 dC1 "later".toList rfl rfl,
   claimC1.2 dTok "42".toList rfl rfl⟩

/-! ### Claim C9 -/

/-- Claim C9: the extraction engine is a total function of its input
(it is defined by structural recursion here, mirroring code that can
only recurse and never throw on JSON-shaped data).  Every non-composite
input yields `null`; every input none of whose keys anywhere in the
structure matches either pattern yields `null`; every non-null
descriptor has at least one non-null field; and a number captured for
the token class is coerced to its string form. -/
theorem claimC9 :
    (∀ j : JVal, isComposite j = false → extractCorrectInfo j = none) ∧
    (∀ data : JVal,
        (∀ p ∈ dfsJson data, textPat p.1 = false ∧ tokenPat p.1 = false) →
        extractCorrectInfo data = none) ∧
    (∀ (data : JVal) (p : Payload), extractCorrectInfo data = some p →
        p.correctText ≠ none ∨ p.correctToken ≠ none) ∧
    (∀ (k : List Char) (i : Int), tokenPat k = true →
        extractCorrectInfo (.obj [(k, .num i)]) = some ⟨none, some (intChars i)⟩) := by
  refine ⟨?_, ?_, ?_, ?_⟩
  · intro j h
    exact extract_of_scalar h
  · intro data hkeys
    by_cases hc : isComposite data = true
    · have hT : textVals (dfsJson data) = [] := by
        simp only [textVals, List.filterMap_eq_nil_iff]
        intro p hp
        simp [textOf, (hkeys p hp).1]
      have hK : tokVals (dfsJson data) = [] := by
        simp only [tokVals, List.filterMap_eq_nil_iff]
        intro p hp
        simp [tokOf, (hkeys p hp).2]
      have ht := walk_correctText data
      have hk := walk_correctToken data
      rw [hT] at ht
      rw [hK] at hk
      have ht2 : (walkJson ⟨none, none⟩ data).correctText = none := by
        rw [ht]; rfl
      have hk2 : (walkJson ⟨none, none⟩ data).correctToken = none := by
        rw [hk]; rfl
      rw [extract_of_composite hc]
      simp [ht2, hk2, truthyOpt]
    · exact extract_of_scalar (by simpa using hc)
  · intro data p h
    by_cases hc : isComposite data = true
    · rw [extract_of_composite hc] at h
      by_cases h2 : (truthyOpt (walkJson ⟨none, none⟩ data).correctText
          || truthyOpt (walkJson ⟨none, none⟩ data).correctToken) = true
      · rw [if_pos h2] at h
        simp only [Option.some.injEq] at h
        subst h
        rcases Bool.or_eq_true_iff.mp h2 with ht | hk
        · exact Or.inl (truthyOpt_ne_none ht)
        · exact Or.inr (truthyOpt_ne_none hk)
      · rw [if_neg h2] at h
        exact absurd h (by simp)
    · rw [extract_of_scalar (by simpa using hc)] at h
      exact absurd h (by simp)
  · intro k i hk
    have hc : isComposite (JVal.obj [(k, .num i)]) = true := rfl
    rw [extract_of_composite hc]
    have hw : walkJson ⟨none, none⟩ (JVal.obj [(k, .num i)]) =
        capture ⟨none, none⟩ k (.num i) := by
      simp [walkJson, walkEntries]
    have hct : (capture ⟨none, none⟩ k (.num i)).correctText = none := by
      rw [capture_correctText]
      simp [textOf]
    have hck : (capture ⟨none, none⟩ k (.num i)).correctToken = some (intChars i) := by
      rw [capture_correctToken]
      simp [tokOf, hk, stepCap, truthyOpt]
    have hcap : capture ⟨none, none⟩ k (.num i) = ⟨none, some (intChars i)⟩ := by
      cases hc2 : capture ⟨none, none⟩ k (.num i)
      rw [hc2] at hct hck
      simp_all
    have hne : (intChars i).isEmpty = false := by
      rcases h2 : intChars i with _ | ⟨c, cs⟩
      · exact absurd h2 (intChars_ne_nil i)
      · rfl
    rw [hw, hcap]
    simp [truthyOpt, hne]

/-- Witness for claim C9 at concrete inputs: a scalar, an object with
no matching key, a successful extraction, and a numeric token. -/
theorem claimC9_witness :
    extractCorrectInfo (.num 5) = none ∧
    extractCorrectInfo dNoMatch = none ∧
    ((⟨some "hi".toList, none⟩ : Payload).correctText ≠ none ∨
     (⟨some "hi".toList, none⟩ : Payload).correctToken ≠ none) ∧
    extractCorrectInfo (.obj [("answer_token".toList, .num 42)]) =
      some ⟨none, some (intChars 42)⟩ :=
  ⟨claimC9.1 (.num 5) rfl,
   claimC9.2.1 dNoMatch (by decide),
   claimC9.2.2.1 (.obj [("correct_text".toList, .str "hi".toList)]) ⟨some "hi".toList, none⟩ rfl,
   claimC9.2.2.2 "answer_token".toList 42 (by decide)⟩

/-! ### Claim C7 -/

/-- Slicing at the first bracket (`data.slice(data.indexOf('['))`)
recovers exactly the bracketed tail when the prefix holds no
bracket. -/
theorem dropWhile_append_bracket : ∀ (pre : List Char), pre.contains '[' = false →
    ∀ (t : List Char), ((pre ++ '[' :: t).dropWhile (fun c => c != '[')) = '[' :: t
  | [], _, t => by simp [List.dropWhile]
  | c :: rest, h, t => by
      simp only [List.contains_cons] at h
      rw [Bool.or_eq_false_iff] at h
      have hcb : (c != '[') = true := by
        rcases h with ⟨h1, _⟩
        simp only [bne_iff_ne, ne_eq]
        intro he
        rw [he] at h1
        simp at h1
      have hrest : rest.contains '[' = false := h.2
      simp only [List.cons_append, List.dropWhile_cons, hcb, if_true]
      exact dropWhile_append_bracket rest hrest t

/-- One loop iteration posts exactly what the extraction engine
returns: the `item && typeof item === 'object'` guard coincides with
the guard inside `extractCorrectInfo` itself. -/
theorem itemPost_eq_extract (it : JVal) : itemPost it = extractCorrectInfo it := by
  cases it <;> simp [itemPost, extractCorrectInfo, truthy, isObjType]

/-- Claim C7: an inbound text message made of a Socket.io framing
prefix (starting with the `42` event prefix, holding no bracket) and a
bracketed array has the prefix stripped at the first bracket, the
remainder parsed as an array, and every element handed individually to
the extraction engine; the posted descriptors are precisely the truthy
extraction results in array order. -/
theorem claimC7 (pre r : List Char) (items : List JVal)
    (hpre : "42".toList.isPrefixOf pre = true)
    (hnb : pre.contains '[' = false)
    (hparse : jsonParse ('[' :: r) = some (.arr items)) :
    parseSocketMessage (pre ++ '[' :: r) = items.filterMap extractCorrectInfo := by
  have hpre2 : "42".toList.isPrefixOf (pre ++ '[' :: r) = true := by
    have h1 : "42".toList <+: pre := List.isPrefixOf_iff_prefix.mp hpre
    exact List.isPrefixOf_iff_prefix.mpr (h1.trans (List.prefix_append pre ('[' :: r)))
  have hcont : (pre ++ '[' :: r).contains '[' = true := by
    simp
  have hdrop := dropWhile_append_bracket pre hnb r
  unfold parseSocketMessage
  rw [hpre2, hcont]
  simp only [Bool.and_self, if_true]
  rw [hdrop, hparse]
  exact List.filterMap_congr (fun it _ => itemPost_eq_extract it)

/-- Witness for claim C7: the scenario message
`42["answer",...Berlin...]` yields exactly one posted descriptor with
`correctText` equal to `Berlin`. -/
theorem claimC7_witness :
    parseSocketMessage "42[\"answer\",\x7b\"correct_text\":\"Berlin\"\x7d]".toList =
      [⟨some "Berlin".toList, none⟩] := by
  have h := claimC7 "42".toList "\"answer\",\x7b\"correct_text\":\"Berlin\"\x7d]".toList
      [.str "answer".toList, .obj [("correct_text".toList, .str "Berlin".toList)]]
      rfl rfl rfl
  rw [show ("42[\"answer\",\x7b\"correct_text\":\"Berlin\"\x7d]".toList : List Char) =
      "42".toList ++ '[' :: "\"answer\",\x7b\"correct_text\":\"Berlin\"\x7d]".toList from rfl]
  rw [h]
  rfl

/-! ### Claim C2 -/

/-- Claim C2: token lookup strictly precedes text lookup.  When the
descriptor carries a token (a set, hence truthy, string) and any
document element matches one of the five fixed token attributes with
that value, the locate phase returns the first such element and the
text stage never runs; conversely, whenever the text stage ran, token
lookup had returned no element. -/
theorem claimC2 :
    (∀ (doc : List Elem) (p : JVal) (t : List Char) (i : Nat),
        getProp p "correctToken".toList = .str t →
        findByToken doc (.str t) = some i →
        locatePayloadT doc p = (.ok (some i), false)) ∧
    (∀ (doc : List Elem) (p : JVal),
        (locatePayloadT doc p).2 = true →
        findByToken doc (getProp p "correctToken".toList) = none) := by
  constructor
  · intro doc p t i hget hfind
    have htr : truthy (.str t) = true := by
      by_contra hne
      have hf : truthy (JVal.str t) = false := by simpa using hne
      rw [findByToken, hf] at hfind
      simp at hfind
    unfold locatePayloadT
    rw [hget, htr, if_pos rfl, hfind]
  · intro doc p h
    by_cases htr : truthy (getProp p "correctToken".toList) = true
    · cases hfind : findByToken doc (getProp p "correctToken".toList) with
      | none => rfl
      | some j =>
          exfalso
          unfold locatePayloadT at h
          rw [htr, if_pos rfl, hfind] at h
          simp at h
    · have hf : truthy (getProp p "correctToken".toList) = false := by simpa using htr
      simp only [findByToken, hf, Bool.not_false, if_true]

/-- Witness for claim C2: with both fields set, a token-attribute match
present, and an exact text match earlier in document order, locate
returns the token match and the text stage did not run. -/
theorem claimC2_witness : locatePayloadT [eTxt, eTok] pC2 = (.ok (some 1), false) :=
  claimC2.1 [eTxt, eTok] pC2 "tok1".toList 1 rfl rfl

/-! ### Claim C3 -/

/-- Claim C3: the exact-normalized-match pass runs over the whole
candidate set before any substring check, so whenever some candidate
matches exactly, `findByText` returns the first exact match even if a
merely containing candidate occurs earlier in document order. -/
theorem claimC3 (doc : List Elem) (t : List Char) (pr : Nat × Elem)
    (ht : t ≠ [])
    (hex : (answerCandidates doc).find?
        (fun q => normalizeText q.2.text == normalizeText t) = some pr) :
    findByText doc t = some pr.1 := by
  have hte : t.isEmpty = false := by
    cases t with
    | nil => exact absurd rfl ht
    | cons c cs => rfl
  unfold findByText
  rw [hte]
  simp only [Bool.false_eq_true, if_false, hex]

/-- Witness for claim C3, scenario A: the payload extracts to `Paris`,
the earlier candidate contains the normalized search text as a
substring, and `findByText` still returns the exact-match element. -/
theorem claimC3_witness :
    extractCorrectInfo (.obj [("correct_text".toList, .str "Paris".toList)]) =
      some ⟨some "Paris".toList, none⟩ ∧
    containsSub (normalizeText "Paris".toList) (normalizeText eParisFrance.text) = true ∧
    findByText docParis "Paris".toList = some 1 := by
  refine ⟨rfl, rfl, ?_⟩
  exact claimC3 docParis "Paris".toList (1, eParis) (by decide) rfl

/-! ### Claim C8 -/

theorem fcaLoop_eq_find (doc : List Elem) : ∀ (f : Nat) (n : Option Nat),
    fcaLoop doc f n = (ancestorChain doc f n).find? (answerAt doc)
  | 0, _ => rfl
  | _ + 1, none => rfl
  | f + 1, some i => by
      cases hg : doc[i]? with
      | none => simp only [fcaLoop, ancestorChain, hg, List.find?_nil]
      | some e =>
          simp only [fcaLoop, ancestorChain, hg]
          by_cases ha : e.answerSel = true
          · rw [List.find?_cons_of_pos _ (show answerAt doc i = true by
              unfold answerAt; rw [hg]; exact ha)]
            rw [ha, if_pos rfl]
          · have ha2 : e.answerSel = false := by simpa using ha
            rw [List.find?_cons_of_neg _ (by
              show ¬ answerAt doc i = true
              unfold answerAt; rw [hg]; simp [ha2])]
            rw [ha2]
            simp only [Bool.false_eq_true, if_false]
            exact fcaLoop_eq_find doc f e.parent

theorem ancestorChain_length_le (doc : List Elem) : ∀ (f : Nat) (n : Option Nat),
    (ancestorChain doc f n).length ≤ f
  | 0, _ => le_refl _
  | _ + 1, none => by simp [ancestorChain]
  | f + 1, some i => by
      cases hg : doc[i]? with
      | none => simp [ancestorChain, hg]
      | some e =>
          simp only [ancestorChain, hg, List.length_cons]
          exact Nat.succ_le_succ (ancestorChain_length_le doc f e.parent)

theorem fcaLoop_clear (doc : List Elem) : ∀ (f : Nat) (n : Option Nat),
    fcaLoop (clearPreviousHighlight doc) f n = fcaLoop doc f n
  | 0, _ => rfl
  | _ + 1, none => rfl
  | f + 1, some i => by
      cases hg : doc[i]? with
      | none =>
          have hclear : (clearPreviousHighlight doc)[i]? = none := by
            simp [clearPreviousHighlight, hg]
          simp only [fcaLoop, hclear, hg]
      | some e =>
          have hclear : (clearPreviousHighlight doc)[i]? =
              some { e with marked := false } := by
            simp [clearPreviousHighlight, hg]
          simp only [fcaLoop, hclear, hg]
          cases he : e.answerSel
          · simp only [Bool.false_eq_true, if_false]
            exact fcaLoop_clear doc f e.parent
          · rfl

theorem findClosestAnswer_clear (doc : List Elem) (i : Nat) :
    findClosestAnswer (clearPreviousHighlight doc) i = findClosestAnswer doc i := by
  unfold findClosestAnswer
  rw [fcaLoop_clear]

/-- Claim C8: the element finally highlighted is obtained by walking
upward from the located element through the ancestor chain the code
visits — the element itself and at most five proper ancestors, six
nodes in all for the cap `MAX_PARENT_DEPTH = 6` — and promoting to the
nearest node of that walk satisfying the answer selectors; when no node
of the walk qualifies, the original element is kept; and `markAsCorrect`
applies the marker exactly to the promoted element after clearing. -/
theorem claimC8 (doc : List Elem) (i : Nat) :
    findClosestAnswer doc i =
      (((ancestorChain doc 6 (some i)).find? (answerAt doc)).getD i) ∧
    (ancestorChain doc 6 (some i)).length ≤ 6 ∧
    ((ancestorChain doc 6 (some i)).find? (answerAt doc) = none →
      findClosestAnswer doc i = i) ∧
    markAsCorrect doc i =
      setMarkedAt (clearPreviousHighlight doc) (findClosestAnswer doc i) := by
  refine ⟨?_, ancestorChain_length_le doc 6 (some i), ?_, ?_⟩
  · unfold findClosestAnswer
    rw [fcaLoop_eq_find]
  · intro hnone
    unfold findClosestAnswer
    rw [fcaLoop_eq_find, hnone]
    rfl
  · unfold markAsCorrect
    rw [findClosestAnswer_clear]

/-- Witness for claim C8: with no qualifying node in the walk the
original element is kept, and a located child is promoted to its
answer-shaped parent. -/
theorem claimC8_witness :
    findClosestAnswer [⟨[], "t".toList, false, true, false, none⟩] 0 = 0 ∧
    findClosestAnswer docPromo 0 = 1 :=
  ⟨(claimC8 [⟨[], "t".toList, false, true, false, none⟩] 0).2.2.1 rfl,
   (claimC8 docPromo 0).1.trans (by rfl)⟩

/-! ### Claim C4 -/

theorem markedCount_clear : ∀ (doc : List Elem),
    markedCount (clearPreviousHighlight doc) = 0
  | [] => rfl
  | e :: rest => by
      have ih := markedCount_clear rest
      simp only [clearPreviousHighlight, markedCount, List.map_cons, List.countP_cons] at *
      simp [ih]

theorem markedCount_setMarkedAt : ∀ (l : List Elem) (j : Nat),
    markedCount l = 0 → markedCount (setMarkedAt l j) ≤ 1
  | [], _, _ => by simp [setMarkedAt, markedCount]
  | e :: r, 0, h => by
      simp only [markedCount, List.countP_cons] at h ⊢
      simp only [setMarkedAt, List.countP_cons, if_true]
      omega
  | e :: r, n + 1, h => by
      simp only [markedCount, List.countP_cons] at h
      have hr : markedCount r = 0 := by
        simp only [markedCount]
        omega
      have ih := markedCount_setMarkedAt r n hr
      simp only [markedCount] at ih
      simp only [setMarkedAt, markedCount, List.countP_cons]
      omega

theorem markedCount_markAsCorrect (doc : List Elem) (i : Nat) :
    markedCount (markAsCorrect doc i) ≤ 1 := by
  unfold markAsCorrect
  exact markedCount_setMarkedAt _ _ (markedCount_clear doc)

theorem markedCount_step (s : CState) (h : markedCount s.doc ≤ 1) :
    markedCount (runExcept s (tryMarkCorrectAnswer s)).doc ≤ 1 := by
  unfold tryMarkCorrectAnswer
  cases htr : truthy s.lastPayload with
  | false => simpa [runExcept, htr] using h
  | true =>
      simp only [htr, Bool.not_true, Bool.false_eq_true, if_false]
      cases hl : locatePayload s.doc s.lastPayload with
      | error e => simpa [runExcept] using h
      | ok o =>
          cases o with
          | none => simpa [runExcept] using h
          | some i =>
              simp only [runExcept]
              exact markedCount_markAsCorrect s.doc i

theorem markedCount_applyOp (s : CState) (o : COp) (h : markedCount s.doc ≤ 1) :
    markedCount (applyOp s o).doc ≤ 1 := by
  cases o with
  | mutationRetry => exact markedCount_step s h
  | message sw m =>
      simp only [applyOp, onMessage]
      split_ifs
      · exact h
      · exact h
      · exact markedCount_step ⟨s.doc, getProp m "payload".toList⟩ h

theorem markedCount_runOps : ∀ (ops : List COp) (s : CState),
    markedCount s.doc ≤ 1 → markedCount (runOps s ops).doc ≤ 1
  | [], _, h => h
  | o :: rest, s, h =>
      markedCount_runOps rest (applyOp s o) (markedCount_applyOp s o h)

/-- Claim C4: every application of a highlight removes the marker class
from all previously marked elements before adding it to the single
promoted target, so a freshly marked document carries at most one
marker; consequently every state reachable by message receipts and
mutation retries from a document carrying at most one marker keeps at
most one marker. -/
theorem claimC4 :
    (∀ (doc : List Elem) (i : Nat), markedCount (markAsCorrect doc i) ≤ 1) ∧
    (∀ (d0 : List Elem) (ops : List COp), markedCount d0 ≤ 1 →
        markedCount (runOps ⟨d0, .null⟩ ops).doc ≤ 1) :=
  ⟨markedCount_markAsCorrect, fun d0 ops h => markedCount_runOps ops ⟨d0, .null⟩ h⟩

/-- Witness for claim C4: a concrete mark application and a concrete
run. -/
theorem claimC4_witness :
    markedCount (markAsCorrect [eParis] 0) ≤ 1 ∧
    markedCount (runOps ⟨docParis, .null⟩
      [.message true (mkEnvelope (.obj [("correctText".toList, .str "Paris".toList)])),
       .mutationRetry]).doc ≤ 1 :=
  ⟨claimC4.1 [eParis] 0, claimC4.2 docParis _ (by decide)⟩

/-! ### Claim C5 -/

/-- Claim C5: with a truthy pending payload, a locate attempt that
finds no element leaves the whole state unchanged — the payload is
retained for the next mutation-driven retry and nothing is highlighted;
a locate attempt that finds an element highlights it and clears the
payload; and a locate attempt that throws also leaves the state
unchanged.  The payload is therefore cleared exactly on successful
highlight. -/
theorem claimC5 (s : CState) (htr : truthy s.lastPayload = true) :
    (locatePayload s.doc s.lastPayload = .ok none → tryMarkCorrectAnswer s = .ok s) ∧
    (∀ i, locatePayload s.doc s.lastPayload = .ok (some i) →
        tryMarkCorrectAnswer s = .ok ⟨markAsCorrect s.doc i, .null⟩) ∧
    (locatePayload s.doc s.lastPayload = .error () →
        runExcept s (tryMarkCorrectAnswer s) = s) := by
  refine ⟨?_, ?_, ?_⟩
  · intro hl
    unfold tryMarkCorrectAnswer
    simp only [htr, Bool.not_true, Bool.false_eq_true, if_false, hl]
  · intro i hl
    unfold tryMarkCorrectAnswer
    simp only [htr, Bool.not_true, Bool.false_eq_true, if_false, hl]
  · intro hl
    unfold tryMarkCorrectAnswer
    simp only [htr, Bool.not_true, Bool.false_eq_true, if_false, hl, runExcept]

/-- Witness for claim C5: on an empty document the payload is retained
and nothing changes; on a document with a matching candidate the
element is marked and the payload cleared. -/
theorem claimC5_witness :
    tryMarkCorrectAnswer ⟨[], pText⟩ = .ok ⟨[], pText⟩ ∧
    tryMarkCorrectAnswer ⟨[eTxt], pText⟩ = .ok ⟨markAsCorrect [eTxt] 0, .null⟩ :=
  ⟨(claimC5 ⟨[], pText⟩ rfl).1 rfl,
   (claimC5 ⟨[eTxt], pText⟩ rfl).2.1 0 rfl⟩

/-! ### Claim C6 -/

/-- Claim C6: when two descriptors arrive in sequence through the relay
before the first resolves (its locate attempt yields no element, by
miss or by throw), the run is indistinguishable from receiving only the
second descriptor: the newest payload replaces the previous one as the
sole pending descriptor and the first is never attempted again. -/
theorem claimC6 (s : CState) (p1 p2 : JVal)
    (h1 : ∀ i, locatePayload s.doc p1 ≠ .ok (some i)) :
    runOps s [.message true (mkEnvelope p1), .message true (mkEnvelope p2)] =
      runOps s [.message true (mkEnvelope p2)] := by
  have hck : applyOp s (.message true (mkEnvelope p1)) =
      runExcept ⟨s.doc, p1⟩ (tryMarkCorrectAnswer ⟨s.doc, p1⟩) := rfl
  have hstep1 : runExcept ⟨s.doc, p1⟩ (tryMarkCorrectAnswer ⟨s.doc, p1⟩) =
      ⟨s.doc, p1⟩ := by
    unfold tryMarkCorrectAnswer
    cases htr : truthy p1 with
    | false => simp [runExcept, htr]
    | true =>
        simp only [htr, Bool.not_true, Bool.false_eq_true, if_false]
        cases hl : locatePayload s.doc p1 with
        | error e => simp only [hl, runExcept]
        | ok o =>
            cases o with
            | none => simp only [hl, runExcept]
            | some i => exact absurd hl (h1 i)
  show applyOp (applyOp s (.message true (mkEnvelope p1)))
      (.message true (mkEnvelope p2)) = applyOp s (.message true (mkEnvelope p2))
  rw [hck, hstep1]
  rfl

/-- Witness for claim C6 at a concrete state: the first descriptor does
not resolve on the empty document, and the two-receipt run equals the
one-receipt run. -/
theorem claimC6_witness :
    runOps ⟨[], .null⟩ [.message true (mkEnvelope pText), .message true (mkEnvelope pText2)] =
      runOps ⟨[], .null⟩ [.message true (mkEnvelope pText2)] :=
  claimC6 ⟨[], .null⟩ pText pText2 (by
    intro i h
    rw [show locatePayload ([] : List Elem) pText = .ok none from rfl] at h
    simp at h)

/-! ### Claim C10 -/

/-- Claim C10, counterexample: a malformed payload whose `correctText`
is a truthy non-string (here the number `5`) reaches `normalizeText`
inside `findByText`, where calling `replace` on a non-string throws a
`TypeError`; the match attempt is not total on such payloads. -/
theorem claimC10_cex :
    tryMarkCorrectAnswer ⟨[], .obj [("correctText".toList, .num 5)]⟩ = .error () := rfl

/-- Claim C10 (amended): a broadcast message from the page window
carrying both fixed tags is stored as the pending payload without any
shape validation, and for every payload that is null, a non-object, or
whose `correctText` and `correctToken` properties are both falsy, the
match attempt throws nothing, highlights nothing, and leaves document
and stored payload unchanged.  (A truthy non-string `correctText`
instead raises a `TypeError` in text normalization, and a truthy
non-string `correctToken` is string-coerced and may legitimately
highlight — see the counterexample.) -/
theorem claimC10 (s : CState) (p : JVal)
    (ht : truthy (getProp p "correctToken".toList) = false)
    (hx : truthy (getProp p "correctText".toList) = false) :
    tryMarkCorrectAnswer ⟨s.doc, p⟩ = .ok ⟨s.doc, p⟩ ∧
    onMessage s true (mkEnvelope p) = ⟨s.doc, p⟩ := by
  have hloc : locatePayload s.doc p = .ok none := by
    unfold locatePayload locatePayloadT
    rw [ht]
    simp only [Bool.false_eq_true, if_false]
    rw [hx]
    simp
  have h1 : tryMarkCorrectAnswer ⟨s.doc, p⟩ = .ok ⟨s.doc, p⟩ := by
    unfold tryMarkCorrectAnswer
    cases htr : truthy p with
    | false => simp [htr]
    | true => simp only [htr, Bool.not_true, Bool.false_eq_true, if_false, hloc]
  refine ⟨h1, ?_⟩
  have h2 : onMessage s true (mkEnvelope p) =
      runExcept ⟨s.doc, p⟩ (tryMarkCorrectAnswer ⟨s.doc, p⟩) := rfl
  rw [h2, h1]
  rfl

/-- Witness for the amended claim C10: a non-object payload is stored
and causes neither a throw nor a highlight. -/
theorem claimC10_witness :
    tryMarkCorrectAnswer ⟨[], .num 7⟩ = .ok ⟨[], .num 7⟩ ∧
    onMessage ⟨[], .null⟩ true (mkEnvelope (.num 7)) = ⟨[], .num 7⟩ :=
  claimC10 ⟨[], .null⟩ (.num 7) rfl rfl
